import Mathlib

/-!
Verification of the podsee-marine-parade web application core logic.

This file gives a shallow embedding of the repository's source:
* `api/r.js` — the redirect-with-logging endpoint,
* the comment service (`sanitizeText`, `containsUrl`, `validateComment`,
  `fetchComments`, `createComment`),
* `CommentSection.jsx` — offerings sorting/grouping, pagination and the
  view-filter fade debounce,
and proves or refutes the frozen specification claims about them.

Modelling conventions: JS strings are `String` (lists of characters; the
UTF-16 `.length` is modelled by the character count, identical on the BMP),
machine-generated ids and clock readings are explicit parameters, remote
calls are oracle functions passed in explicitly, and JS `undefined` versus
`null` is modelled by an explicit `JsOpt`/`Option` layering where the code
distinguishes them.
-/

namespace Podsee

/-! ### JS string helpers -/

/-- Whitespace characters removed by JS `String.prototype.trim` (the
common ASCII set plus NBSP, BOM and line/paragraph separators). -/
def isJsWsChar (c : Char) : Bool :=
  c = ' ' || c = '\t' || c = '\n' || c = '\r' ||
  c = '\x0b' || c = '\x0c' || c = ' ' || c = '﻿' ||
  c = ' ' || c = ' '

/-- JS `.trim()` on a character list: drop whitespace from both ends. -/
def jsTrim (l : List Char) : List Char :=
  ((l.dropWhile isJsWsChar).reverse.dropWhile isJsWsChar).reverse

/-- Code-point lexicographic comparison of character lists (the model of
`localeCompare` used by the offering sort). -/
def lexCmp : List Char → List Char → Ordering
  | [], [] => .eq
  | [], _ :: _ => .lt
  | _ :: _, [] => .gt
  | a :: as, b :: bs => if a < b then .lt else if b < a then .gt else lexCmp as bs

/-- Comparison of two naturals as the sign of a JS comparator difference. -/
def natCmp (a b : Nat) : Ordering :=
  if a < b then .lt else if b < a then .gt else .eq

/-! ### sanitizeText (commentService)

JS source:
```
function sanitizeText(text) {
  if (!text) return '';
  let sanitized = text.replace(/<[^>]*>/g, '');
  sanitized = sanitized.replace(/<script\b[^<]*(?:(?!<\/script>)<[^<]*)*<\/script>/gi, '');
  sanitized = sanitized.trim();
  return sanitized;
}
```
-/

/-- Remainder of the list after the first `'>'`, if any.  Used to model a
single match of the tag regex `<[^>]*>`: at a `'<'`, the greedy `[^>]*`
runs to the first `'>'`, which must then be consumed. -/
def afterFirstGt : List Char → Option (List Char)
  | [] => none
  | c :: rest => if c = '>' then some rest else afterFirstGt rest

theorem afterFirstGt_length {l rest : List Char}
    (h : afterFirstGt l = some rest) : rest.length < l.length := by
  induction l with
  | nil => simp [afterFirstGt] at h
  | cons c cs ih =>
    simp only [afterFirstGt] at h
    split at h
    · cases h; simp
    · exact Nat.lt_trans (ih h) (by simp)

theorem afterFirstGt_sublist {l rest : List Char}
    (h : afterFirstGt l = some rest) : rest.Sublist l := by
  induction l with
  | nil => simp [afterFirstGt] at h
  | cons c cs ih =>
    simp only [afterFirstGt] at h
    split at h
    · cases h; exact List.sublist_cons_self _ _
    · exact (ih h).trans (List.sublist_cons_self _ _)

theorem afterFirstGt_eq_none_iff (l : List Char) :
    afterFirstGt l = none ↔ '>' ∉ l := by
  induction l with
  | nil => simp [afterFirstGt]
  | cons c cs ih =>
    simp only [afterFirstGt]
    split
    · next hc => subst hc; simp
    · next hc =>
      rw [ih]
      simp only [List.mem_cons, not_or]
      exact ⟨fun hm => ⟨fun h => hc h.symm, hm⟩, fun h => h.2⟩

/-- Global replace of `/<[^>]*>/g` by the empty string: scan left to
right; at a `'<'` with a later `'>'` drop through that `'>'` and continue
after it, otherwise copy the character. -/
def stripTags : List Char → List Char
  | [] => []
  | c :: rest =>
    if c = '<' then
      match h : afterFirstGt rest with
      | some after => stripTags after
      | none => c :: stripTags rest
    else c :: stripTags rest
termination_by l => l.length
decreasing_by
  · exact Nat.lt_trans (afterFirstGt_length h) (Nat.lt_succ_self _)
  · exact Nat.lt_succ_self _
  · exact Nat.lt_succ_self _

/-! The `<script ...>...</script>` regex, applied with the `i` flag.
A pattern is a list of per-character predicates; letters of the literal
pattern accept both cases. -/

/-- Exact-character pattern element. -/
def exactChar (x : Char) : Char → Bool := fun c => c = x

/-- Case-insensitive letter pattern element (lowercase and uppercase forms
given explicitly). -/
def ciL (lo up : Char) : Char → Bool := fun c => c = lo || c = up

/-- Match a pattern (list of character predicates) against a prefix of the
input, returning the remainder on success. -/
def matchChars : List (Char → Bool) → List Char → Option (List Char)
  | [], l => some l
  | _ :: _, [] => none
  | p :: ps, c :: cs => if p c then matchChars ps cs else none

/-- The literal `<script` with `/i`. -/
def openScriptPat : List (Char → Bool) :=
  [exactChar '<', ciL 's' 'S', ciL 'c' 'C', ciL 'r' 'R',
   ciL 'i' 'I', ciL 'p' 'P', ciL 't' 'T']

/-- The literal `</script>` with `/i`. -/
def closeScriptPat : List (Char → Bool) :=
  [exactChar '<', exactChar '/', ciL 's' 'S', ciL 'c' 'C', ciL 'r' 'R',
   ciL 'i' 'I', ciL 'p' 'P', ciL 't' 'T', exactChar '>']

theorem matchChars_length {ps : List (Char → Bool)} {l r : List Char}
    (h : matchChars ps l = some r) : r.length + ps.length = l.length := by
  induction ps generalizing l with
  | nil => simp [matchChars] at h; simp [h]
  | cons p ps ih =>
    cases l with
    | nil => simp [matchChars] at h
    | cons c cs =>
      simp only [matchChars] at h
      split at h
      · have := ih h
        simp [List.length_cons, ← this]; omega
      · cases h

theorem matchChars_suffix {ps : List (Char → Bool)} {l r : List Char}
    (h : matchChars ps l = some r) : r.IsSuffix l := by
  induction ps generalizing l with
  | nil => simp [matchChars] at h; simp [h]
  | cons p ps ih =>
    cases l with
    | nil => simp [matchChars] at h
    | cons c cs =>
      simp only [matchChars] at h
      split at h
      · exact (ih h).trans (List.suffix_cons c cs)
      · cases h

theorem matchChars_exists_sat {ps : List (Char → Bool)} {l r : List Char}
    (h : matchChars ps l = some r) :
    ∀ p ∈ ps, ∃ c ∈ l, p c = true := by
  induction ps generalizing l with
  | nil => simp
  | cons q qs ih =>
    cases l with
    | nil => simp [matchChars] at h
    | cons c cs =>
      simp only [matchChars] at h
      split at h
      · next hq =>
        intro p hp
        rcases List.mem_cons.mp hp with rfl | hmem
        · exact ⟨c, List.mem_cons_self c cs, hq⟩
        · obtain ⟨d, hd, hpd⟩ := ih h p hmem
          exact ⟨d, List.mem_cons_of_mem c hd, hpd⟩
      · cases h

/-- Search for the first case-insensitive occurrence of `</script>`,
returning the remainder after it. -/
def findCloseScript : List Char → Option (List Char)
  | [] => none
  | c :: rest =>
    match matchChars closeScriptPat (c :: rest) with
    | some after => some after
    | none => findCloseScript rest

theorem findCloseScript_length {l r : List Char}
    (h : findCloseScript l = some r) : r.length < l.length := by
  induction l with
  | nil => simp [findCloseScript] at h
  | cons c cs ih =>
    simp only [findCloseScript] at h
    split at h
    · next heq =>
      cases h
      have hm := matchChars_length heq
      have h9 : closeScriptPat.length = 9 := by rfl
      rw [h9, List.length_cons] at hm
      simp only [List.length_cons]
      omega
    · exact Nat.lt_trans (ih h) (Nat.lt_succ_self _)

theorem findCloseScript_gt_mem {l r : List Char}
    (h : findCloseScript l = some r) : '>' ∈ l := by
  induction l with
  | nil => simp [findCloseScript] at h
  | cons c cs ih =>
    simp only [findCloseScript] at h
    split at h
    · next heq =>
      obtain ⟨d, hd, hpd⟩ := matchChars_exists_sat heq (exactChar '>') (by
        simp [closeScriptPat])
      have : d = '>' := by simpa [exactChar] using hpd
      exact this ▸ hd
    · exact List.mem_cons_of_mem c (ih h)

/-- Word character for the `\b` boundary in the script regex. -/
def isWordChar (c : Char) : Bool :=
  ('a' ≤ c && c ≤ 'z') || ('A' ≤ c && c ≤ 'Z') || ('0' ≤ c && c ≤ '9') || c = '_'

/-- One match attempt of `<script\b[^<]*(?:(?!<\/script>)<[^<]*)*<\/script>`
at the head of the list: `<script` (case-insensitive), a word boundary,
then everything through the first case-insensitive `</script>`. -/
def scriptMatchAt (l : List Char) : Option (List Char) :=
  match matchChars openScriptPat l with
  | none => none
  | some rest =>
    match rest with
    | [] => none
    | c :: _ => if isWordChar c then none else findCloseScript rest

theorem scriptMatchAt_length {l r : List Char}
    (h : scriptMatchAt l = some r) : r.length < l.length := by
  unfold scriptMatchAt at h
  split at h
  · cases h
  · next rest heq =>
    have hlen := matchChars_length heq
    have h7 : openScriptPat.length = 7 := by rfl
    rw [h7] at hlen
    split at h
    · cases h
    · split at h
      · cases h
      · have := findCloseScript_length h
        omega

/-- Global replace of the script-element regex by the empty string. -/
def removeScripts : List Char → List Char
  | [] => []
  | c :: rest =>
    match h : scriptMatchAt (c :: rest) with
    | some after => removeScripts after
    | none => c :: removeScripts rest
termination_by l => l.length
decreasing_by
  · exact scriptMatchAt_length h
  · exact Nat.lt_succ_self _

/-- Model of `sanitizeText` from the comment service: empty (falsy) input
returns the empty string; otherwise strip `<...>` tag matches, then apply
the script-element regex, then trim. -/
def sanitizeText (s : String) : String :=
  if s = "" then ""
  else String.mk (jsTrim (removeScripts (stripTags s.data)))

theorem stripTags_cons_some {rest after : List Char}
    (h : afterFirstGt rest = some after) :
    stripTags ('<' :: rest) = stripTags after := by
  simp only [stripTags, reduceIte]
  split
  · next a heq => rw [h] at heq; cases heq; rfl
  · next heq => rw [h] at heq; cases heq

theorem stripTags_cons_none {rest : List Char} (h : afterFirstGt rest = none) :
    stripTags ('<' :: rest) = '<' :: stripTags rest := by
  simp only [stripTags, reduceIte]
  split
  · next a heq => rw [h] at heq; cases heq
  · rfl

theorem stripTags_cons_ne {c : Char} {rest : List Char} (hc : ¬ c = '<') :
    stripTags (c :: rest) = c :: stripTags rest := by
  simp only [stripTags, if_neg hc]

theorem removeScripts_cons_some {c : Char} {rest after : List Char}
    (h : scriptMatchAt (c :: rest) = some after) :
    removeScripts (c :: rest) = removeScripts after := by
  simp only [removeScripts]
  split
  · next a heq => rw [h] at heq; cases heq; rfl
  · next heq => rw [h] at heq; cases heq

theorem removeScripts_cons_none {c : Char} {rest : List Char}
    (h : scriptMatchAt (c :: rest) = none) :
    removeScripts (c :: rest) = c :: removeScripts rest := by
  simp only [removeScripts]
  split
  · next a heq => rw [h] at heq; cases heq
  · rfl

/-- Invariant satisfied by tag-stripped text: no `'<'` in the list is
followed (anywhere later) by a `'>'`.  On such text neither regex of
`sanitizeText` can match. -/
def NoTagRemnant : List Char → Prop
  | [] => True
  | c :: rest => (c = '<' → '>' ∉ rest) ∧ NoTagRemnant rest

theorem stripTags_sublist (l : List Char) : (stripTags l).Sublist l := by
  induction l using stripTags.induct with
  | case1 => simp [stripTags]
  | case2 rest after hin ih =>
    rw [stripTags_cons_some hin]
    exact ih.trans ((afterFirstGt_sublist hin).trans (List.sublist_cons_self _ _))
  | case3 rest hin ih =>
    rw [stripTags_cons_none hin]
    exact ih.cons₂ '<'
  | case4 c rest hc ih =>
    rw [stripTags_cons_ne hc]
    exact ih.cons₂ c

theorem stripTags_noTagRemnant (l : List Char) : NoTagRemnant (stripTags l) := by
  induction l using stripTags.induct with
  | case1 => simp [stripTags, NoTagRemnant]
  | case2 rest after hin ih =>
    rw [stripTags_cons_some hin]; exact ih
  | case3 rest hin ih =>
    rw [stripTags_cons_none hin]
    refine ⟨fun _ hmem => ?_, ih⟩
    exact (afterFirstGt_eq_none_iff rest).mp hin ((stripTags_sublist rest).subset hmem)
  | case4 c rest hc ih =>
    rw [stripTags_cons_ne hc]
    exact ⟨fun h => absurd h hc, ih⟩

theorem stripTags_eq_self {l : List Char} (h : NoTagRemnant l) : stripTags l = l := by
  induction l with
  | nil => simp [stripTags]
  | cons c rest ih =>
    by_cases hc : c = '<'
    · subst hc
      have hnone : afterFirstGt rest = none :=
        (afterFirstGt_eq_none_iff rest).mpr (h.1 rfl)
      rw [stripTags_cons_none hnone, ih h.2]
    · rw [stripTags_cons_ne hc, ih h.2]

theorem scriptMatchAt_eq_none_of_inv {c : Char} {rest : List Char}
    (h : NoTagRemnant (c :: rest)) : scriptMatchAt (c :: rest) = none := by
  unfold scriptMatchAt
  cases hm : matchChars openScriptPat (c :: rest) with
  | none => rfl
  | some rest1 =>
    have hc : c = '<' := by
      simp only [openScriptPat, matchChars] at hm
      by_cases h2 : exactChar '<' c = true
      · simpa [exactChar] using h2
      · simp [h2] at hm
    subst hc
    have hngt : '>' ∉ rest := h.1 rfl
    have hsuf : rest1 <:+ '<' :: rest := matchChars_suffix hm
    have hlen : rest1.length + openScriptPat.length = ('<' :: rest).length :=
      matchChars_length hm
    have h7 : openScriptPat.length = 7 := by rfl
    have hsub : rest1.Sublist rest := by
      rcases List.suffix_cons_iff.mp hsuf with heq | hsuf'
      · exfalso
        rw [heq, h7, List.length_cons] at hlen
        omega
      · exact hsuf'.sublist
    cases rest1 with
    | nil => rfl
    | cons c1 r1 =>
      by_cases hw : isWordChar c1 = true
      · simp [hw]
      · simp only [hw, if_neg, Bool.not_eq_true]
        cases hfc : findCloseScript (c1 :: r1) with
        | none => simp [hw]
        | some r =>
          exfalso
          exact hngt (hsub.subset (findCloseScript_gt_mem hfc))

theorem removeScripts_eq_self {l : List Char} (h : NoTagRemnant l) :
    removeScripts l = l := by
  induction l with
  | nil => simp [removeScripts]
  | cons c rest ih =>
    rw [removeScripts_cons_none (scriptMatchAt_eq_none_of_inv h), ih h.2]

theorem noTagRemnant_append_right {a b : List Char}
    (h : NoTagRemnant (a ++ b)) : NoTagRemnant b := by
  induction a with
  | nil => exact h
  | cons c a ih => exact ih h.2

theorem noTagRemnant_append_left {a b : List Char}
    (h : NoTagRemnant (a ++ b)) : NoTagRemnant a := by
  induction a with
  | nil => trivial
  | cons c a ih =>
    refine ⟨fun hc hmem => ?_, ih h.2⟩
    exact (h.1 hc) (List.mem_append.mpr (Or.inl hmem))

/-- Splitting the front-trimmed list around the back trim. -/
theorem jsTrim_append_eq (l : List Char) :
    l.dropWhile isJsWsChar =
      jsTrim l ++ ((l.dropWhile isJsWsChar).reverse.takeWhile isJsWsChar).reverse := by
  have h := congrArg List.reverse
    (List.takeWhile_append_dropWhile isJsWsChar (l.dropWhile isJsWsChar).reverse)
  rw [List.reverse_append, List.reverse_reverse] at h
  exact h.symm

theorem noTagRemnant_jsTrim {l : List Char} (h : NoTagRemnant l) :
    NoTagRemnant (jsTrim l) := by
  have h1 : NoTagRemnant (l.dropWhile isJsWsChar) := by
    have hsplit := List.takeWhile_append_dropWhile isJsWsChar l
    exact noTagRemnant_append_right (a := l.takeWhile isJsWsChar)
      (by rw [hsplit]; exact h)
  exact noTagRemnant_append_left (jsTrim_append_eq l ▸ h1)

theorem dropWhile_dropWhile (p : Char → Bool) (l : List Char) :
    (l.dropWhile p).dropWhile p = l.dropWhile p := by
  induction l with
  | nil => simp
  | cons c rest ih =>
    rw [List.dropWhile_cons]
    split
    · exact ih
    · next hp => rw [List.dropWhile_cons, if_neg hp]

theorem head_not_sat_of_dropWhile_eq_self {p : Char → Bool} {a : Char}
    {l : List Char} (h : (a :: l).dropWhile p = a :: l) : p a = false := by
  cases hb : p a with
  | false => rfl
  | true =>
    exfalso
    rw [List.dropWhile_cons, if_pos hb] at h
    have hle : (l.dropWhile p).length ≤ l.length := (List.dropWhile_sublist p).length_le
    rw [h] at hle
    simp at hle

theorem jsTrim_idem (l : List Char) : jsTrim (jsTrim l) = jsTrim l := by
  have hmr : (jsTrim l).reverse = (l.dropWhile isJsWsChar).reverse.dropWhile isJsWsChar := by
    simp [jsTrim]
  have hF3 : (jsTrim l).reverse.dropWhile isJsWsChar = (jsTrim l).reverse := by
    rw [hmr]; exact dropWhile_dropWhile _ _
  have hF4 : (jsTrim l).dropWhile isJsWsChar = jsTrim l := by
    cases hr : jsTrim l with
    | nil => simp
    | cons a r =>
      have hm1 : (l.dropWhile isJsWsChar).dropWhile isJsWsChar = l.dropWhile isJsWsChar :=
        dropWhile_dropWhile _ _
      have hpre := jsTrim_append_eq l
      rw [hr] at hpre
      have hpa : isJsWsChar a = false := by
        rw [hpre] at hm1
        cases hcons : (a :: r) ++ ((l.dropWhile isJsWsChar).reverse.takeWhile isJsWsChar).reverse with
        | nil => simp at hcons
        | cons b bs =>
          have hab : b = a := by
            simp only [List.cons_append] at hcons
            exact (List.cons.injEq _ _ _ _ ▸ hcons).1.symm
          rw [hcons] at hm1
          exact hab ▸ head_not_sat_of_dropWhile_eq_self hm1
      rw [List.dropWhile_cons, hpa]
      simp
  rw [jsTrim, hF4, hF3, List.reverse_reverse]

example : sanitizeText "  hello <b>world</b>  " = "hello world" := by
  simp [sanitizeText, stripTags, afterFirstGt, removeScripts, scriptMatchAt,
    matchChars, openScriptPat, closeScriptPat, findCloseScript, exactChar, ciL,
    isWordChar, jsTrim, isJsWsChar, String.data]
example : sanitizeText "<script>alert(1)</script>" = "alert(1)" := by
  simp [sanitizeText, stripTags, afterFirstGt, removeScripts, scriptMatchAt,
    matchChars, openScriptPat, closeScriptPat, findCloseScript, exactChar, ciL,
    isWordChar, jsTrim, isJsWsChar, String.data]
example : sanitizeText "" = "" := by decide

/-! ### containsUrl and validateComment (commentService)

JS source:
```
function containsUrl(text) {
  const urlPatterns = [
    /https?:\/\//i,
    /www\./i,
    /\.[a-z]{2,}\//i,
    /\b[a-z0-9-]+\.(com|net|org|edu|gov|io|co|uk|us)\b/i
  ];
  return urlPatterns.some(pattern => pattern.test(text));
}
```
-/

/-- ASCII letter (the `[a-z]` class under the `i` flag). -/
def isAsciiLetterChar (c : Char) : Bool :=
  ('a' ≤ c && c ≤ 'z') || ('A' ≤ c && c ≤ 'Z')

/-- The `[a-z0-9-]` class under the `i` flag. -/
def isDomainChar (c : Char) : Bool :=
  isAsciiLetterChar c || ('0' ≤ c && c ≤ '9') || c = '-'

/-- Scan for a fixed pattern anywhere in the input (regex `test`). -/
def containsPat (pat : List (Char → Bool)) : List Char → Bool
  | [] => (matchChars pat []).isSome
  | c :: rest => (matchChars pat (c :: rest)).isSome || containsPat pat rest

/-- The literal `http://` with `/i` (one alternative of `https?:\/\//i`). -/
def httpPat : List (Char → Bool) :=
  [ciL 'h' 'H', ciL 't' 'T', ciL 't' 'T', ciL 'p' 'P',
   exactChar ':', exactChar '/', exactChar '/']

/-- The literal `https://` with `/i` (the other alternative). -/
def httpsPat : List (Char → Bool) :=
  [ciL 'h' 'H', ciL 't' 'T', ciL 't' 'T', ciL 'p' 'P', ciL 's' 'S',
   exactChar ':', exactChar '/', exactChar '/']

/-- The literal `www.` with `/i`. -/
def wwwPat : List (Char → Bool) :=
  [ciL 'w' 'W', ciL 'w' 'W', ciL 'w' 'W', exactChar '.']

/-- Match of `\.[a-z]{2,}\/` at the head: a dot, the maximal letter run
(which must have length at least two), then a slash.  Backtracking cannot
stop the run early because the following character would be a letter, not
a slash. -/
def dotPathAt : List Char → Bool
  | '.' :: rest =>
    2 ≤ (rest.takeWhile isAsciiLetterChar).length &&
      (match rest.dropWhile isAsciiLetterChar with
       | '/' :: _ => true
       | _ => false)
  | _ => false

/-- Scan for `\.[a-z]{2,}\/` anywhere in the input. -/
def containsDotPath : List Char → Bool
  | [] => false
  | c :: rest => dotPathAt (c :: rest) || containsDotPath rest

/-- The TLD alternatives `(com|net|org|edu|gov|io|co|uk|us)` with `/i`. -/
def tldPats : List (List (Char → Bool)) :=
  [[ciL 'c' 'C', ciL 'o' 'O', ciL 'm' 'M'],
   [ciL 'n' 'N', ciL 'e' 'E', ciL 't' 'T'],
   [ciL 'o' 'O', ciL 'r' 'R', ciL 'g' 'G'],
   [ciL 'e' 'E', ciL 'd' 'D', ciL 'u' 'U'],
   [ciL 'g' 'G', ciL 'o' 'O', ciL 'v' 'V'],
   [ciL 'i' 'I', ciL 'o' 'O'],
   [ciL 'c' 'C', ciL 'o' 'O'],
   [ciL 'u' 'U', ciL 'k' 'K'],
   [ciL 'u' 'U', ciL 's' 'S']]

/-- Word boundary after a match: next character absent or not a word
character. -/
def boundaryAfter : List Char → Bool
  | [] => true
  | c :: _ => !isWordChar c

/-- Match of `\b[a-z0-9-]+\.(com|...)\b` starting at the head of `l`,
with `prev` the character just before `l` (if any) for the leading `\b`.
The `+` run is maximal because the following `.` is not in the class. -/
def bareDomainAt (prev : Option Char) (l : List Char) : Bool :=
  match l with
  | [] => false
  | c :: _ =>
    isDomainChar c &&
    (if isWordChar c then
       (match prev with
        | none => true
        | some p => !isWordChar p)
     else
       (match prev with
        | none => false
        | some p => isWordChar p)) &&
    (match l.dropWhile isDomainChar with
     | '.' :: restTld =>
       tldPats.any (fun pat =>
         match matchChars pat restTld with
         | some r => boundaryAfter r
         | none => false)
     | _ => false)

/-- Scan for the bare-domain pattern anywhere in the input, tracking the
previous character for the leading word boundary. -/
def scanBareDomain (prev : Option Char) : List Char → Bool
  | [] => false
  | c :: rest => bareDomainAt prev (c :: rest) || scanBareDomain (some c) rest

/-- Model of `containsUrl` from the comment service. -/
def containsUrl (s : String) : Bool :=
  containsPat httpPat s.data || containsPat httpsPat s.data ||
  containsPat wwwPat s.data || containsDotPath s.data ||
  scanBareDomain none s.data

example : containsUrl "visit https://x.y now" = true := by decide
example : containsUrl "see WWW.example" = true := by decide
example : containsUrl "file.pdf/section" = true := by decide
example : containsUrl "foo.com" = true := by decide
example : containsUrl "foo.company" = false := by decide
example : containsUrl "a plain comment" = false := by decide
example : containsUrl "great co" = false := by decide

/-- Model of `validateComment` from the comment service.  Each failed
check appends its message; all violations are accumulated in order.  JS
`.length` on strings is modelled by the character count. -/
def validateComment (text username : String) : List String :=
  (if text = "" ∨ (jsTrim text.data).length = 0 then ["Comment cannot be empty"] else []) ++
  (if text ≠ "" ∧ 500 < text.data.length then ["Comment must be 500 characters or less"] else []) ++
  (if containsUrl text then ["Comments cannot contain URLs or links"] else []) ++
  (if username = "" ∨ (jsTrim username.data).length = 0 then ["Username is required"] else []) ++
  (if username ≠ "" ∧ 50 < username.data.length then ["Username must be 50 characters or less"] else [])

example : validateComment "hello" "alice" = [] := by decide
example : validateComment "" "" = ["Comment cannot be empty", "Username is required"] := by
  decide
example : validateComment "go to www.x" "" =
    ["Comments cannot contain URLs or links", "Username is required"] := by decide

/-! ### createComment (commentService)

The `comments` table is modelled as a list of rows; the generated row id
is an explicit parameter.  `.eq('comment_id', pid).single()` is modelled
by `find?`, whose `none` case is exactly the "no row" error of
`.single()`. -/

structure CommentRow where
  comment_id : String
  centre_id : String
  username : String
  text : String
  parent_comment_id : Option String
  level : Option String
  subject : Option String
  hidden : Bool
deriving DecidableEq

structure CreateResult where
  db : List CommentRow
  data : Option CommentRow
  error : Option String
deriving DecidableEq

def findComment (db : List CommentRow) (id : String) : Option CommentRow :=
  db.find? (fun row => row.comment_id == id)

/-- Model of `createComment`: sanitize, validate (joined message on any
violation, no write), then — only when `parentCommentId` is truthy — look
up the parent, reject a missing parent or a parent that is itself a
reply, and inherit the parent's level/subject; finally insert the row
with `hidden := false`. -/
def createComment (db : List CommentRow) (newId : String)
    (centreId username text : String) (parentCommentId : Option String)
    (level subject : Option String) : CreateResult :=
  let sanitizedText := sanitizeText text
  let sanitizedUsername := sanitizeText username
  match validateComment sanitizedText sanitizedUsername with
  | e :: es => ⟨db, none, some (String.intercalate ". " (e :: es))⟩
  | [] =>
    let insertRow : Option String → Option String → CreateResult :=
      fun finalLevel finalSubject =>
        let row : CommentRow :=
          { comment_id := newId, centre_id := centreId,
            username := sanitizedUsername, text := sanitizedText,
            parent_comment_id := parentCommentId,
            level := finalLevel, subject := finalSubject, hidden := false }
        ⟨db ++ [row], some row, none⟩
    match parentCommentId with
    | none => insertRow level subject
    | some pid =>
      if pid = "" then insertRow level subject
      else
        match findComment db pid with
        | none => ⟨db, none, some "Parent comment not found"⟩
        | some parent =>
          match parent.parent_comment_id with
          | some _ =>
            ⟨db, none,
             some "Cannot reply to a reply. Only top-level comments can be replied to."⟩
          | none => insertRow parent.level parent.subject

/-! ### fetchComments (commentService)

JS `undefined` at a call site is distinguished from `null` because the
function's default parameters (`level = null`, `subject = null`) replace
`undefined` by `null` before the body runs, which makes the body's
`level !== undefined || subject !== undefined` test vacuously true.  The
two remote procedures are oracle functions supplied in a `FetchEnv`;
each returns the supabase `(data, error)` pair. -/

inductive JsOpt (α : Type) where
  | undefined
  | defined (val : α)
deriving DecidableEq

def jsDefault {α : Type} (d : α) : JsOpt α → α
  | .undefined => d
  | .defined v => v

structure FetchResult where
  data : List CommentRow
  error : Option String
deriving DecidableEq

structure FetchEnv where
  contextRpc : String → Option String → Option String → Nat → Nat →
    Option (List CommentRow) × Option String
  basicRpc : String → Nat → Nat → Option (List CommentRow) × Option String

/-- Model of `fetchCommentsBasic`: call the basic RPC; an error is caught
and converted to `(data := [], error := message)`, success returns
`(data or [], error := none)`. -/
def fetchCommentsBasic (env : FetchEnv) (centreId : String)
    (limitArg offsetArg : JsOpt Nat) : FetchResult :=
  let limit := jsDefault 20 limitArg
  let offset := jsDefault 0 offsetArg
  match env.basicRpc centreId limit offset with
  | (_, some msg) => { data := [], error := some msg }
  | (dat, none) => { data := dat.getD [], error := none }

/-- Model of `fetchComments`, including the default-parameter step that
turns an `undefined` argument into `null` before the body's
`level !== undefined || subject !== undefined` test runs. -/
def fetchComments (env : FetchEnv) (centreId : String)
    (limitArg offsetArg : JsOpt Nat)
    (levelArg subjectArg : JsOpt (Option String)) : FetchResult :=
  let limit := jsDefault 20 limitArg
  let offset := jsDefault 0 offsetArg
  let level : JsOpt (Option String) :=
    match levelArg with
    | .undefined => .defined none
    | v => v
  let subject : JsOpt (Option String) :=
    match subjectArg with
    | .undefined => .defined none
    | v => v
  if level ≠ JsOpt.undefined ∨ subject ≠ JsOpt.undefined then
    match env.contextRpc centreId (jsDefault none level) (jsDefault none subject)
        limit offset with
    | (_, some _) => fetchCommentsBasic env centreId (.defined limit) (.defined offset)
    | (dat, none) => { data := dat.getD [], error := none }
  else
    fetchCommentsBasic env centreId (.defined limit) (.defined offset)

/-! ### Redirect endpoint (api/r.js) -/

/-- The `to` query parameter as the framework delivers it: absent, a
single string, or an array when supplied multiple times. -/
inductive ToParam where
  | missing
  | single (s : String)
  | multi (l : List String)
deriving DecidableEq

/-- Model of `Array.isArray(to) ? to[0] : to`. -/
def destinationOf : ToParam → Option String
  | .missing => none
  | .single s => some s
  | .multi l => l.head?

def isSchemeStartChar (c : Char) : Bool := isAsciiLetterChar c

def isSchemeChar (c : Char) : Bool :=
  isAsciiLetterChar c || ('0' ≤ c && c ≤ '9') || c = '+' || c = '-' || c = '.'

/-- Split a URL string into scheme and remainder at the first colon,
requiring the scheme shape `[a-zA-Z][a-zA-Z0-9+.-]*`. -/
def schemeSplit (acc : List Char) : List Char → Option (List Char × List Char)
  | [] => none
  | c :: rest =>
    if c = ':' then some (acc.reverse, rest)
    else if isSchemeChar c then schemeSplit (c :: acc) rest
    else none

def splitScheme : List Char → Option (List Char × List Char)
  | [] => none
  | c :: rest => if isSchemeStartChar c then schemeSplit [c] rest else none

/-- WHATWG special schemes that require a nonempty host (`file:` allows
an empty host and is therefore not listed). -/
def specialSchemes : List String := ["http", "https", "ws", "wss", "ftp"]

def hostNonempty (rest : List Char) : Bool :=
  let afterSlashes := rest.dropWhile (fun c => c = '/' || c = '\\')
  !(afterSlashes.takeWhile
      (fun c => !(c = '/' || c = '\\' || c = '?' || c = '#'))).isEmpty

/-- Simplified model of `new URL(s)` returning the (lowercased) protocol
on success: a valid scheme prefix is required, and the special schemes
additionally require a nonempty host, matching the WHATWG parser on the
inputs of interest. -/
def parseUrlProtocol (s : String) : Option String :=
  match splitScheme s.data with
  | none => none
  | some (sch, rest) =>
    let scheme := String.mk (sch.map Char.toLower)
    if scheme ∈ specialSchemes then
      if hostNonempty rest then some (scheme ++ ":") else none
    else some (scheme ++ ":")

example : parseUrlProtocol "https://example.com" = some "https:" := by decide
example : parseUrlProtocol "HTTP://x" = some "http:" := by decide
example : parseUrlProtocol "javascript:alert(1)" = some "javascript:" := by decide
example : parseUrlProtocol "data:text/html,x" = some "data:" := by decide
example : parseUrlProtocol "file:///etc/passwd" = some "file:" := by decide
example : parseUrlProtocol "not a url" = none := by decide
example : parseUrlProtocol "http://" = none := by decide
example : parseUrlProtocol "" = none := by decide

/-- Destination accepted by the handler: parses and the protocol is
exactly `http:` or `https:`. -/
def isValidDestination (d : String) : Bool :=
  match parseUrlProtocol d with
  | some p => p = "http:" || p = "https:"
  | none => false

structure RedirectRequest where
  centreId : Option String
  toParam : ToParam
  referer : Option String
  userAgent : Option String
deriving DecidableEq

structure ClickLogData where
  centreId : String
  destination : String
  sourcePage : String
  userAgent : String
  timestamp : String
deriving DecidableEq

inductive RedirectResponse where
  | badRequest (error : String)
  | redirect (status : Nat) (location : String)
deriving DecidableEq

/-- Observable outcome of one handler invocation: the HTTP response, the
record POSTed to the webhook (if any), and the local console diagnostic
(if any).  `now` stands for `new Date().toISOString()` at request time
and `fetchOk` for the outcome of the fire-and-forget webhook call. -/
structure HandlerOutcome where
  response : RedirectResponse
  dispatched : Option ClickLogData
  localLog : Option String
deriving DecidableEq

/-- Model of the `api/r.js` handler. -/
def handler (webhookUrl : Option String) (now : String) (fetchOk : Bool)
    (req : RedirectRequest) : HandlerOutcome :=
  match destinationOf req.toParam with
  | none => ⟨.badRequest "Missing destination URL", none, none⟩
  | some dest =>
    if dest = "" then ⟨.badRequest "Missing destination URL", none, none⟩
    else
      match parseUrlProtocol dest with
      | none => ⟨.badRequest "Invalid or restricted destination URL", none, none⟩
      | some proto =>
        if proto = "http:" ∨ proto = "https:" then
          let logData : ClickLogData :=
            { centreId :=
                match req.centreId with
                | none => "unknown"
                | some c => if c = "" then "unknown" else c,
              destination := dest,
              sourcePage := req.referer.getD "",
              userAgent := req.userAgent.getD "",
              timestamp := now }
          match webhookUrl with
          | some u =>
            if u = "" then
              ⟨.redirect 302 dest, none, some "CLICK_LOG_WEBHOOK_URL not configured"⟩
            else
              ⟨.redirect 302 dest, some logData,
               if fetchOk then none else some "Webhook logging failed"⟩
          | none =>
            ⟨.redirect 302 dest, none, some "CLICK_LOG_WEBHOOK_URL not configured"⟩
        else ⟨.badRequest "Invalid or restricted destination URL", none, none⟩

/-! ### CommentSection: offerings (sort and grouping) -/

def LEVEL_ORDER : List String :=
  ["P1", "P2", "P3", "P4", "P5", "P6",
   "S1", "S2", "S3", "S4", "S5",
   "JC1", "JC2",
   "IB", "Y5 (IB)", "Y6 (IB)"]

def SUBJECT_ORDER : List String :=
  ["Biology", "Chemistry", "Physics", "Science", "Mathematics", "Higher Chinese",
   "Chinese", "English", "Economics", "History", "Social Studies", "Literature",
   "Geography", "General Paper", "POA", "Malay", "English Language & Linguistics",
   "English Language & Literature", "China Studies in English"]

def LEVEL_GROUP_NAMES : List (String × String) :=
  [("P1", "Primary 1"), ("P2", "Primary 2"), ("P3", "Primary 3"),
   ("P4", "Primary 4"), ("P5", "Primary 5"), ("P6", "Primary 6"),
   ("S1", "Secondary 1"), ("S2", "Secondary 2"), ("S3", "Secondary 3"),
   ("S4", "Secondary 4"), ("S5", "Secondary 5"),
   ("JC1", "JC 1"), ("JC2", "JC 2"),
   ("IB", "IB"), ("Y5 (IB)", "Year 5 (IB)"), ("Y6 (IB)", "Year 6 (IB)")]

def levelGroupLabel (lv : String) : String :=
  match LEVEL_GROUP_NAMES.find? (fun p => p.fst == lv) with
  | some p => p.snd
  | none => lv

/-- Model of the `filterKey` helper (JS falsiness of a string is
emptiness). -/
def filterKey (level subject : String) : String :=
  if level = "" ∧ subject = "" then "all" else level ++ "__" ++ subject

/-- First occurrence index in a canonical list, with `indexOf === -1`
mapped to 9999 as in the comparator. -/
def canonicalIdxGo (v : String) : List String → Nat → Option Nat
  | [], _ => none
  | x :: rest, i => if x = v then some i else canonicalIdxGo v rest (i + 1)

def canonicalIdx (order : List String) (v : String) : Nat :=
  match canonicalIdxGo v order 0 with
  | some i => i
  | none => 9999

def strLexCmp (a b : String) : Ordering := lexCmp a.data b.data

structure OfferingItem where
  key : String
  label : String
  level : String
  subject : String
deriving DecidableEq

/-- The comparator of the offerings sort: canonical level index, then
canonical subject index, then lexicographic level, then lexicographic
subject (the model of `localeCompare` is code-point order). -/
def offeringCmp (a b : OfferingItem) : Ordering :=
  (natCmp (canonicalIdx LEVEL_ORDER a.level) (canonicalIdx LEVEL_ORDER b.level)).then
    ((natCmp (canonicalIdx SUBJECT_ORDER a.subject) (canonicalIdx SUBJECT_ORDER b.subject)).then
      ((strLexCmp a.level b.level).then (strLexCmp a.subject b.subject)))

/-- Raw offering rows of a centre; a missing/empty level or subject is
skipped by the dedup pass. -/
structure RawOffering where
  level : Option String
  subject : Option String
deriving DecidableEq

/-- The first-occurrence dedup pass over the raw offerings (`seen` is the
set of keys already emitted). -/
def dedupOfferings (seen : List String) : List RawOffering → List OfferingItem
  | [] => []
  | o :: rest =>
    match o.level, o.subject with
    | some lv, some sj =>
      if lv = "" ∨ sj = "" then dedupOfferings seen rest
      else
        let key := filterKey lv sj
        if key ∈ seen then dedupOfferings seen rest
        else
          { key := key, label := lv ++ " " ++ sj, level := lv, subject := sj } ::
            dedupOfferings (key :: seen) rest
    | _, _ => dedupOfferings seen rest

/-- Insertion of one item into a list sorted by the comparator (an item
moves past exactly those whose comparison is `gt`, matching a comparator
sort; ties cannot arise between deduplicated items). -/
def insertSorted (x : OfferingItem) : List OfferingItem → List OfferingItem
  | [] => [x]
  | y :: ys => if offeringCmp x y = .gt then y :: insertSorted x ys else x :: y :: ys

def sortOfferings : List OfferingItem → List OfferingItem
  | [] => []
  | x :: xs => insertSorted x (sortOfferings xs)

/-- Model of the `offerings` memo: dedup by `filterKey`, then sort with
the comparator. -/
def offerings (raw : List RawOffering) : List OfferingItem :=
  match raw with
  | [] => []
  | _ => sortOfferings (dedupOfferings [] raw)

inductive OfferingEntry where
  | header (level : String) (label : String)
  | item (it : OfferingItem)
deriving DecidableEq

/-- Model of the `groupedOfferings` one-pass grouping: emit a header
whenever the level differs from the tracked current level. -/
def groupGo (currentLevel : Option String) : List OfferingItem → List OfferingEntry
  | [] => []
  | it :: rest =>
    if currentLevel = some it.level then
      .item it :: groupGo currentLevel rest
    else
      .header it.level (levelGroupLabel it.level) :: .item it ::
        groupGo (some it.level) rest

def groupedOfferings (raw : List RawOffering) : List OfferingEntry :=
  groupGo none (offerings raw)

/-- Specification-side grouping: one header per maximal run of equal
levels, followed by that run's members in order. -/
def groupRuns : List OfferingItem → List OfferingEntry
  | [] => []
  | it :: rest =>
    .header it.level (levelGroupLabel it.level) :: .item it ::
      ((rest.takeWhile (fun y => y.level == it.level)).map .item ++
        groupRuns (rest.dropWhile (fun y => y.level == it.level)))
termination_by l => l.length
decreasing_by
  exact Nat.lt_succ_of_le ((List.dropWhile_sublist _).length_le)

/-! ### CommentSection: pagination -/

/-- The component state touched by the pagination handlers. -/
structure CommentListState where
  comments : List CommentRow
  hasMore : Bool
  offset : Nat
  errorMsg : String
deriving DecidableEq

/-- Model of `loadComments`: fetch page `(20, 0)`; on error record it, on
success replace the list, set `hasMore` iff exactly 20 rows came back,
and set the offset to 20.  The fetch oracle takes `(limit, offset)`. -/
def loadComments (fetchPage : Nat → Nat → FetchResult)
    (s : CommentListState) : CommentListState :=
  let r := fetchPage 20 0
  match r.error with
  | some e => { s with errorMsg := e }
  | none => { comments := r.data, hasMore := r.data.length == 20,
              offset := 20, errorMsg := "" }

/-- Model of `loadMoreComments`: fetch page `(20, state.offset)`; on
success append, set `hasMore` iff exactly 20 rows came back, and advance
the offset by 20. -/
def loadMoreComments (fetchPage : Nat → Nat → FetchResult)
    (s : CommentListState) : CommentListState :=
  let r := fetchPage 20 s.offset
  match r.error with
  | some e => { s with errorMsg := e }
  | none =>
    { s with
      comments := s.comments ++ r.data,
      hasMore := r.data.length == 20,
      offset := s.offset + 20 }

/-! ### CommentSection: view-filter fade debounce

A discrete-time model of `handleViewFilterChange`, the single
`fadeTimeoutRef` slot and the `useEffect` reload on `viewFilter`
changes.  The pending field holds the scheduled fire time and value of
the one outstanding `setTimeout`; `reloads` is the trace of filters for
which a reload was triggered. -/

structure DebounceState where
  viewFilter : String
  contentOpacity : Nat
  pending : Option (Nat × String)
  reloads : List String
deriving DecidableEq

/-- Model of `handleViewFilterChange` at time `t`: ignore a selection
equal to the current filter, otherwise fade out and (re)schedule the
single timer 150 ms ahead, cancelling any pending one. -/
def selectFilter (t : Nat) (v : String) (s : DebounceState) : DebounceState :=
  if v = s.viewFilter then s
  else { s with contentOpacity := 0, pending := some (t + 150, v) }

/-- Model of the timer callback plus the `useEffect` reload: swap the
filter, fade back in, and reload for the new filter (no reload when the
value did not actually change, since React skips the re-render). -/
def fireTimer (s : DebounceState) : DebounceState :=
  match s.pending with
  | none => s
  | some (_, v) =>
    if v = s.viewFilter then { s with contentOpacity := 1, pending := none }
    else { viewFilter := v, contentOpacity := 1, pending := none,
           reloads := s.reloads ++ [v] }

def timerDue (t : Nat) (s : DebounceState) : Prop :=
  match s.pending with
  | some (ft, _) => ft ≤ t
  | none => False

instance (t : Nat) (s : DebounceState) : Decidable (timerDue t s) := by
  unfold timerDue
  cases s.pending with
  | none => exact inferInstanceAs (Decidable False)
  | some p => exact inferInstanceAs (Decidable (p.fst ≤ t))

/-- Run a time-ordered list of selection events: before each event the
pending timer fires if it is due, and at the end the remaining pending
timer (if any) fires. -/
def runEvents : List (Nat × String) → DebounceState → DebounceState
  | [], s => fireTimer s
  | (t, v) :: rest, s =>
    let s1 := if timerDue t s then fireTimer s else s
    runEvents rest (selectFilter t v s1)

/-! ### Claim theorems -/

/-- C6: the spec claims `sanitizeText` removes script-element content, and
the code's own comment says the second regex removes "script tags and
their content"; but the first pass already strips every complete tag, so
the script regex never matches and the text between the script tags
survives.  At the failing input the code returns the script body. -/
theorem sanitizeText_script_content_survives :
    sanitizeText "<script>alert(1)</script>" = "alert(1)" := by
  simp [sanitizeText, stripTags, afterFirstGt, removeScripts, scriptMatchAt,
    matchChars, openScriptPat, closeScriptPat, findCloseScript, exactChar, ciL,
    isWordChar, jsTrim, isJsWsChar]

/-- Strings already satisfying the tag invariant and fixed by trimming are
fixed by `sanitizeText`. -/
theorem sanitizeText_eq_self {t : String} (hinv : NoTagRemnant t.data)
    (htr : jsTrim t.data = t.data) : sanitizeText t = t := by
  by_cases ht : t = ""
  · subst ht; simp [sanitizeText]
  · have h1 : sanitizeText t =
        String.mk (jsTrim (removeScripts (stripTags t.data))) := by
      simp [sanitizeText, ht]
    rw [h1, stripTags_eq_self hinv, removeScripts_eq_self hinv, htr]

/-- C7: `sanitizeText` is idempotent — applying it twice yields the same
result as applying it once. -/
theorem sanitizeText_idempotent (s : String) :
    sanitizeText (sanitizeText s) = sanitizeText s := by
  by_cases hs : s = ""
  · subst hs; simp [sanitizeText]
  · have h1 : sanitizeText s =
        String.mk (jsTrim (removeScripts (stripTags s.data))) := by
      simp [sanitizeText, hs]
    have hinv1 : NoTagRemnant (stripTags s.data) := stripTags_noTagRemnant _
    have hrs : removeScripts (stripTags s.data) = stripTags s.data :=
      removeScripts_eq_self hinv1
    have hdata : (sanitizeText s).data = jsTrim (stripTags s.data) := by
      rw [h1, hrs]
    have hinvd : NoTagRemnant (sanitizeText s).data := by
      rw [hdata]; exact noTagRemnant_jsTrim hinv1
    exact sanitizeText_eq_self hinvd (by rw [hdata]; exact jsTrim_idem _)

/-- Membership characterization of the accumulated violation list. -/
theorem mem_validateComment (m text username : String) :
    m ∈ validateComment text username ↔
      ((text = "" ∨ (jsTrim text.data).length = 0) ∧ m = "Comment cannot be empty") ∨
      ((text ≠ "" ∧ 500 < text.data.length) ∧
        m = "Comment must be 500 characters or less") ∨
      (containsUrl text = true ∧ m = "Comments cannot contain URLs or links") ∨
      ((username = "" ∨ (jsTrim username.data).length = 0) ∧ m = "Username is required") ∨
      ((username ≠ "" ∧ 50 < username.data.length) ∧
        m = "Username must be 50 characters or less") := by
  unfold validateComment
  by_cases h1 : text = "" ∨ (jsTrim text.data).length = 0 <;>
    by_cases h2 : text ≠ "" ∧ 500 < text.data.length <;>
      by_cases h3 : containsUrl text = true <;>
        by_cases h4 : username = "" ∨ (jsTrim username.data).length = 0 <;>
          by_cases h5 : username ≠ "" ∧ 50 < username.data.length <;>
            simp [h1, h2, h3, h4, h5]

/-- C4: `validateComment` accumulates every violation (each of the five
messages is present exactly when its condition holds, and nothing else is
ever returned), and `createComment` on any non-empty violation list for
the sanitized inputs fails with the `". "`-joined message and performs no
insert. -/
theorem validateComment_accumulates_and_blocks (text username : String) :
    ("Comment cannot be empty" ∈ validateComment text username ↔
      (text = "" ∨ (jsTrim text.data).length = 0)) ∧
    ("Comment must be 500 characters or less" ∈ validateComment text username ↔
      (text ≠ "" ∧ 500 < text.data.length)) ∧
    ("Comments cannot contain URLs or links" ∈ validateComment text username ↔
      containsUrl text = true) ∧
    ("Username is required" ∈ validateComment text username ↔
      (username = "" ∨ (jsTrim username.data).length = 0)) ∧
    ("Username must be 50 characters or less" ∈ validateComment text username ↔
      (username ≠ "" ∧ 50 < username.data.length)) ∧
    (∀ m ∈ validateComment text username,
      m = "Comment cannot be empty" ∨
      m = "Comment must be 500 characters or less" ∨
      m = "Comments cannot contain URLs or links" ∨
      m = "Username is required" ∨
      m = "Username must be 50 characters or less") ∧
    (∀ (db : List CommentRow) (newId centreId : String)
        (parentId : Option String) (level subject : Option String),
      validateComment (sanitizeText text) (sanitizeText username) ≠ [] →
      createComment db newId centreId username text parentId level subject =
        ⟨db, none, some (String.intercalate ". "
          (validateComment (sanitizeText text) (sanitizeText username)))⟩) := by
  refine ⟨?_, ?_, ?_, ?_, ?_, ?_, ?_⟩
  · rw [mem_validateComment]; simp
  · rw [mem_validateComment]; simp
  · rw [mem_validateComment]; simp
  · rw [mem_validateComment]; simp
  · rw [mem_validateComment]; simp
  · intro m hm
    rw [mem_validateComment] at hm
    rcases hm with ⟨_, rfl⟩ | ⟨_, rfl⟩ | ⟨_, rfl⟩ | ⟨_, rfl⟩ | ⟨_, rfl⟩ <;> simp
  · intro db newId centreId parentId level subject hne
    cases hv : validateComment (sanitizeText text) (sanitizeText username) with
    | nil => exact absurd hv hne
    | cons e es => simp [createComment, hv]

/-- C4 witness: a comment that is both overlong-free and URL-bearing with
a missing username accumulates exactly the two violations, and
`createComment` fails with the joined message without inserting. -/
theorem validateComment_accumulates_and_blocks_witness :
    validateComment "go to www.x" "" =
      ["Comments cannot contain URLs or links", "Username is required"] ∧
    createComment [] "id-1" "centre-1" "" "go to www.x" none none none =
      ⟨[], none, some "Comments cannot contain URLs or links. Username is required"⟩ := by
  constructor
  · decide
  · have hs1 : sanitizeText "go to www.x" = "go to www.x" := by
      simp [sanitizeText, stripTags, afterFirstGt, removeScripts, scriptMatchAt,
        matchChars, openScriptPat, closeScriptPat, findCloseScript, exactChar, ciL,
        isWordChar, jsTrim, isJsWsChar]
    have hs2 : sanitizeText "" = "" := by decide
    have h := (validateComment_accumulates_and_blocks "go to www.x" "").2.2.2.2.2.2
      [] "id-1" "centre-1" none none none
    rw [hs1, hs2] at h
    have hv : validateComment "go to www.x" "" =
        ["Comments cannot contain URLs or links", "Username is required"] := by decide
    rw [hv] at h
    have := h (by simp)
    rw [this]
    rfl

/-- C2 counterexample: the claim quantifies over every call with a
non-null `parentId`, but the code's truthiness test `if (parentCommentId)`
skips the whole parent branch when the id is the empty string.  On an
empty table, where no comment with id `""` exists, the call therefore
succeeds and inserts the caller-supplied level/subject instead of failing
with "parent not found". -/
theorem createComment_empty_parentId_ctrex :
    createComment [] "id-1" "centre-1" "alice" "nice place" (some "")
        (some "P1") (some "Mathematics") =
      ⟨[⟨"id-1", "centre-1", "alice", "nice place", some "", some "P1",
          some "Mathematics", false⟩],
       some ⟨"id-1", "centre-1", "alice", "nice place", some "", some "P1",
          some "Mathematics", false⟩,
       none⟩ := by
  have hs1 : sanitizeText "nice place" = "nice place" := by
    simp [sanitizeText, stripTags, afterFirstGt, removeScripts, scriptMatchAt,
      matchChars, openScriptPat, closeScriptPat, findCloseScript, exactChar, ciL,
      isWordChar, jsTrim, isJsWsChar]
  have hs2 : sanitizeText "alice" = "alice" := by
    simp [sanitizeText, stripTags, afterFirstGt, removeScripts, scriptMatchAt,
      matchChars, openScriptPat, closeScriptPat, findCloseScript, exactChar, ciL,
      isWordChar, jsTrim, isJsWsChar]
  have hv : validateComment "nice place" "alice" = [] := by decide
  simp [createComment, hs1, hs2, hv]

/-- C2 (amended): for every call whose `parentId` is non-null and
non-empty and whose sanitized inputs pass validation: a missing parent
fails with "Parent comment not found" and inserts nothing; a parent that
is itself a reply fails with the reply-to-reply message and inserts
nothing; and a successful reply stores the parent's level and subject,
never the caller-supplied values.  (With failing validation the call
also inserts nothing but reports the validation message instead.) -/
theorem createComment_reply_rules (db : List CommentRow)
    (newId centreId username text pid : String)
    (level subject : Option String)
    (hpid : pid ≠ "")
    (hval : validateComment (sanitizeText text) (sanitizeText username) = []) :
    (findComment db pid = none →
      createComment db newId centreId username text (some pid) level subject =
        ⟨db, none, some "Parent comment not found"⟩) ∧
    (∀ parent, findComment db pid = some parent →
      parent.parent_comment_id ≠ none →
      createComment db newId centreId username text (some pid) level subject =
        ⟨db, none,
         some "Cannot reply to a reply. Only top-level comments can be replied to."⟩) ∧
    (∀ parent, findComment db pid = some parent →
      parent.parent_comment_id = none →
      createComment db newId centreId username text (some pid) level subject =
        ⟨db ++ [⟨newId, centreId, sanitizeText username, sanitizeText text,
                 some pid, parent.level, parent.subject, false⟩],
         some ⟨newId, centreId, sanitizeText username, sanitizeText text,
               some pid, parent.level, parent.subject, false⟩,
         none⟩) := by
  refine ⟨?_, ?_, ?_⟩
  · intro hfind
    simp [createComment, hval, hpid, hfind]
  · intro parent hfind hreply
    cases hp : parent.parent_comment_id with
    | none => exact absurd hp hreply
    | some q => simp [createComment, hval, hpid, hfind, hp]
  · intro parent hfind htop
    simp [createComment, hval, hpid, hfind, htop]

/-- C2 witness: a reply to an existing top-level comment with caller
levels that differ from the parent's stores the parent's level/subject. -/
theorem createComment_reply_rules_witness :
    ("p1" : String) ≠ "" ∧
    validateComment (sanitizeText "great class") (sanitizeText "bob") = [] ∧
    createComment
        [⟨"p1", "centre-1", "ann", "top comment", none, some "S2",
          some "Physics", false⟩]
        "id-2" "centre-1" "bob" "great class" (some "p1")
        (some "P1") (some "Chinese") =
      ⟨[⟨"p1", "centre-1", "ann", "top comment", none, some "S2",
          some "Physics", false⟩,
        ⟨"id-2", "centre-1", "bob", "great class", some "p1", some "S2",
          some "Physics", false⟩],
       some ⟨"id-2", "centre-1", "bob", "great class", some "p1", some "S2",
          some "Physics", false⟩,
       none⟩ := by
  have hs1 : sanitizeText "great class" = "great class" := by
    simp [sanitizeText, stripTags, afterFirstGt, removeScripts, scriptMatchAt,
      matchChars, openScriptPat, closeScriptPat, findCloseScript, exactChar, ciL,
      isWordChar, jsTrim, isJsWsChar]
  have hs2 : sanitizeText "bob" = "bob" := by
    simp [sanitizeText, stripTags, afterFirstGt, removeScripts, scriptMatchAt,
      matchChars, openScriptPat, closeScriptPat, findCloseScript, exactChar, ciL,
      isWordChar, jsTrim, isJsWsChar]
  have hval : validateComment (sanitizeText "great class") (sanitizeText "bob") = [] := by
    rw [hs1, hs2]; decide
  refine ⟨by decide, hval, ?_⟩
  have h := (createComment_reply_rules
      [⟨"p1", "centre-1", "ann", "top comment", none, some "S2",
        some "Physics", false⟩]
      "id-2" "centre-1" "bob" "great class" "p1"
      (some "P1") (some "Chinese") (by decide) hval).2.2
      ⟨"p1", "centre-1", "ann", "top comment", none, some "S2",
        some "Physics", false⟩
      (by decide) rfl
  rw [h, hs1, hs2]
  rfl

/-- C3 code bug: the claim (and the code's own inline comment) says the
basic call is invoked directly when no level/subject filter is requested,
but the default parameters `level = null, subject = null` make the body's
`level !== undefined || subject !== undefined` test true on every call,
so the context-aware RPC is always attempted first — the direct basic
branch is unreachable.  With an environment in which both RPCs succeed
with different rows, even a call that requests no filter (arguments
omitted, or explicit nulls as the component passes for "all reviews")
returns the context RPC's rows rather than calling the basic RPC
directly. -/
theorem fetchComments_always_tries_context_rpc :
    (fetchComments
        { contextRpc := fun _ _ _ _ _ =>
            (some [⟨"ctx", "centre-1", "u", "from context rpc", none, none, none,
              false⟩], none),
          basicRpc := fun _ _ _ =>
            (some [⟨"bas", "centre-1", "u", "from basic rpc", none, none, none,
              false⟩], none) }
        "centre-1" .undefined .undefined .undefined .undefined =
      { data := [⟨"ctx", "centre-1", "u", "from context rpc", none, none, none,
          false⟩],
        error := none }) ∧
    (fetchComments
        { contextRpc := fun _ _ _ _ _ =>
            (some [⟨"ctx", "centre-1", "u", "from context rpc", none, none, none,
              false⟩], none),
          basicRpc := fun _ _ _ =>
            (some [⟨"bas", "centre-1", "u", "from basic rpc", none, none, none,
              false⟩], none) }
        "centre-1" (.defined 20) (.defined 0) (.defined none) (.defined none) =
      { data := [⟨"ctx", "centre-1", "u", "from context rpc", none, none, none,
          false⟩],
        error := none }) := by
  constructor <;> rfl

/-- C1: the redirect endpoint responds 400 with an error body and without
any webhook dispatch whenever the `to` parameter is absent or not a valid
http/https absolute URL; a repeated `to` behaves exactly as its first
value alone; and a valid destination yields a 302 whose Location is that
destination. -/
theorem handler_validates_destination (webhookUrl : Option String)
    (now : String) (fetchOk : Bool) (req : RedirectRequest) :
    (destinationOf req.toParam = none →
      handler webhookUrl now fetchOk req =
        ⟨.badRequest "Missing destination URL", none, none⟩) ∧
    (∀ d, destinationOf req.toParam = some d → isValidDestination d = false →
      ∃ msg, handler webhookUrl now fetchOk req =
        ⟨.badRequest msg, none, none⟩) ∧
    (∀ v rest, req.toParam = .multi (v :: rest) →
      handler webhookUrl now fetchOk req =
        handler webhookUrl now fetchOk { req with toParam := .single v }) ∧
    (∀ d, destinationOf req.toParam = some d → isValidDestination d = true →
      (handler webhookUrl now fetchOk req).response = .redirect 302 d) := by
  refine ⟨?_, ?_, ?_, ?_⟩
  · intro hdest
    simp [handler, hdest]
  · intro d hdest hinvalid
    by_cases hde : d = ""
    · exact ⟨"Missing destination URL", by simp [handler, hdest, hde]⟩
    · cases hp : parseUrlProtocol d with
      | none =>
        exact ⟨"Invalid or restricted destination URL",
          by simp [handler, hdest, hde, hp]⟩
      | some proto =>
        have hnp : ¬(proto = "http:" ∨ proto = "https:") := by
          intro hor
          rw [isValidDestination, hp] at hinvalid
          rcases hor with h | h <;> simp [h] at hinvalid
        exact ⟨"Invalid or restricted destination URL",
          by simp [handler, hdest, hde, hp, hnp]⟩
  · intro v rest hmulti
    have h1 : destinationOf req.toParam = some v := by
      rw [hmulti]; rfl
    have h2 : destinationOf (ToParam.single v) = some v := rfl
    simp [handler, h1, h2]
  · intro d hdest hvalid
    cases hp : parseUrlProtocol d with
    | none => rw [isValidDestination, hp] at hvalid; cases hvalid
    | some proto =>
      have hde : ¬ d = "" := by
        intro hde
        subst hde
        have : parseUrlProtocol "" = none := by decide
        rw [this] at hp
        cases hp
      have hproto : proto = "http:" ∨ proto = "https:" := by
        rw [isValidDestination, hp] at hvalid
        rcases Bool.or_eq_true_iff.mp hvalid with h | h
        · exact Or.inl (by simpa using h)
        · exact Or.inr (by simpa using h)
      cases hwh : webhookUrl with
      | none => simp [handler, hdest, hde, hp, hproto]
      | some u =>
        by_cases hu : u = "" <;> simp [handler, hdest, hde, hp, hproto, hu]

/-- C1 witness: `to=javascript:alert(1)` is rejected with a 400 and no
dispatch, and `to=https://example.com` redirects 302 to that location. -/
theorem handler_validates_destination_witness :
    isValidDestination "javascript:alert(1)" = false ∧
    (∃ msg, handler (some "https://hooks.example/log") "2026-01-01T00:00:00.000Z"
        true ⟨some "c1", .single "javascript:alert(1)", none, none⟩ =
      ⟨.badRequest msg, none, none⟩) ∧
    isValidDestination "https://example.com" = true ∧
    (handler (some "https://hooks.example/log") "2026-01-01T00:00:00.000Z"
        true ⟨some "c1", .single "https://example.com", none, none⟩).response =
      .redirect 302 "https://example.com" := by
  refine ⟨by decide, ?_, by decide, ?_⟩
  · exact (handler_validates_destination _ _ _ _).2.1
      "javascript:alert(1)" rfl (by decide)
  · exact (handler_validates_destination _ _ _ _).2.2.2
      "https://example.com" rfl (by decide)

/-- C5: for a valid destination the 302 is issued for every webhook
configuration and every webhook outcome; the webhook failure is recorded
only in the local log; and when a webhook is configured the dispatched
record carries the centreId (default "unknown"), the destination, the
referer and user-agent headers (default empty) and the request-time
ISO-8601 timestamp `now`. -/
theorem handler_redirect_independent_of_webhook (webhookUrl : Option String)
    (now : String) (fetchOk : Bool) (req : RedirectRequest) (d : String)
    (hdest : destinationOf req.toParam = some d)
    (hvalid : isValidDestination d = true) :
    (handler webhookUrl now fetchOk req).response = .redirect 302 d ∧
    (∀ wh2 ok2, (handler wh2 now ok2 req).response =
      (handler webhookUrl now fetchOk req).response) ∧
    (∀ u, webhookUrl = some u → u ≠ "" →
      (handler webhookUrl now fetchOk req).dispatched = some
        { centreId :=
            match req.centreId with
            | none => "unknown"
            | some c => if c = "" then "unknown" else c,
          destination := d,
          sourcePage := req.referer.getD "",
          userAgent := req.userAgent.getD "",
          timestamp := now }) ∧
    (∀ u, webhookUrl = some u → u ≠ "" → fetchOk = false →
      (handler webhookUrl now fetchOk req).localLog =
        some "Webhook logging failed") := by
  have hresp : ∀ (wh : Option String) (ok : Bool),
      (handler wh now ok req).response = .redirect 302 d := fun wh ok =>
    (handler_validates_destination wh now ok req).2.2.2 d hdest hvalid
  cases hp : parseUrlProtocol d with
  | none => rw [isValidDestination, hp] at hvalid; cases hvalid
  | some proto =>
    have hde : ¬ d = "" := by
      intro hde
      subst hde
      have : parseUrlProtocol "" = none := by decide
      rw [this] at hp
      cases hp
    have hproto : proto = "http:" ∨ proto = "https:" := by
      rw [isValidDestination, hp] at hvalid
      rcases Bool.or_eq_true_iff.mp hvalid with h | h
      · exact Or.inl (by simpa using h)
      · exact Or.inr (by simpa using h)
    refine ⟨hresp webhookUrl fetchOk,
      fun wh2 ok2 => (hresp wh2 ok2).trans (hresp webhookUrl fetchOk).symm,
      ?_, ?_⟩
    · intro u hwh hu
      subst hwh
      simp [handler, hdest, hde, hp, hproto, hu]
    · intro u hwh hu hok
      subst hwh
      subst hok
      simp [handler, hdest, hde, hp, hproto, hu]

/-- C5 witness: with a configured webhook, a failing webhook POST, absent
centreId and headers, the handler still issues the 302 and dispatches the
defaulted log record. -/
theorem handler_redirect_independent_of_webhook_witness :
    destinationOf (ToParam.single "http://example.org/page") =
      some "http://example.org/page" ∧
    isValidDestination "http://example.org/page" = true ∧
    (handler (some "https://hooks.example/log") "2026-01-01T00:00:00.000Z"
        false ⟨none, .single "http://example.org/page", none, none⟩).response =
      .redirect 302 "http://example.org/page" ∧
    (handler (some "https://hooks.example/log") "2026-01-01T00:00:00.000Z"
        false ⟨none, .single "http://example.org/page", none, none⟩).dispatched =
      some ⟨"unknown", "http://example.org/page", "", "",
        "2026-01-01T00:00:00.000Z"⟩ ∧
    (handler (some "https://hooks.example/log") "2026-01-01T00:00:00.000Z"
        false ⟨none, .single "http://example.org/page", none, none⟩).localLog =
      some "Webhook logging failed" := by
  have h := handler_redirect_independent_of_webhook
    (some "https://hooks.example/log") "2026-01-01T00:00:00.000Z" false
    ⟨none, .single "http://example.org/page", none, none⟩
    "http://example.org/page" rfl (by decide)
  exact ⟨rfl, by decide, h.1,
    h.2.2.1 "https://hooks.example/log" rfl (by decide),
    h.2.2.2 "https://hooks.example/log" rfl (by decide) rfl⟩

/-- C9: a successful initial load fetches page `(20, 0)`, replaces the
list, sets `hasMore` iff exactly 20 rows were returned, and sets the
offset to 20; a successful "load more" fetches at the current offset,
appends, sets `hasMore` by the same rule, and advances the offset by the
page size. -/
theorem pagination_hasMore_and_offsets (fetchPage : Nat → Nat → FetchResult)
    (s : CommentListState) :
    ((fetchPage 20 0).error = none →
      loadComments fetchPage s =
        { comments := (fetchPage 20 0).data,
          hasMore := (fetchPage 20 0).data.length == 20,
          offset := 20,
          errorMsg := "" }) ∧
    ((fetchPage 20 0).error = none →
      ((loadComments fetchPage s).hasMore = true ↔
        (fetchPage 20 0).data.length = 20)) ∧
    ((fetchPage 20 s.offset).error = none →
      loadMoreComments fetchPage s =
        { s with
          comments := s.comments ++ (fetchPage 20 s.offset).data,
          hasMore := (fetchPage 20 s.offset).data.length == 20,
          offset := s.offset + 20 }) ∧
    ((fetchPage 20 s.offset).error = none →
      ((loadMoreComments fetchPage s).hasMore = true ↔
        (fetchPage 20 s.offset).data.length = 20)) := by
  refine ⟨?_, ?_, ?_, ?_⟩
  · intro herr
    simp [loadComments, herr]
  · intro herr
    simp [loadComments, herr]
  · intro herr
    simp [loadMoreComments, herr]
  · intro herr
    simp [loadMoreComments, herr]

/-- C9 witness: a full page of 20 rows sets `hasMore`, a page of one row
clears it, and the offsets move 0 → 20 → 40 with the rows appended. -/
theorem pagination_hasMore_and_offsets_witness :
    (loadComments
      (fun _ _ => ⟨List.replicate 20
        ⟨"r", "centre-1", "u", "t", none, none, none, false⟩, none⟩)
      ⟨[], false, 0, ""⟩).hasMore = true ∧
    (loadComments
      (fun _ _ => ⟨[⟨"r", "centre-1", "u", "t", none, none, none, false⟩], none⟩)
      ⟨[], false, 0, ""⟩).hasMore = false ∧
    (loadComments
      (fun _ _ => ⟨[⟨"r", "centre-1", "u", "t", none, none, none, false⟩], none⟩)
      ⟨[], false, 0, ""⟩).offset = 20 ∧
    (loadMoreComments
      (fun _ _ => ⟨[⟨"r2", "centre-1", "u", "t2", none, none, none, false⟩], none⟩)
      ⟨[⟨"r", "centre-1", "u", "t", none, none, none, false⟩], true, 20, ""⟩) =
      ⟨[⟨"r", "centre-1", "u", "t", none, none, none, false⟩,
        ⟨"r2", "centre-1", "u", "t2", none, none, none, false⟩], false, 40, ""⟩ := by
  refine ⟨?_, ?_, ?_, ?_⟩
  · have h := (pagination_hasMore_and_offsets
      (fun _ _ => ⟨List.replicate 20
        ⟨"r", "centre-1", "u", "t", none, none, none, false⟩, none⟩)
      ⟨[], false, 0, ""⟩).2.1 rfl
    exact h.mpr (by simp)
  · have h := (pagination_hasMore_and_offsets
      (fun _ _ => ⟨[⟨"r", "centre-1", "u", "t", none, none, none, false⟩], none⟩)
      ⟨[], false, 0, ""⟩).2.1 rfl
    simp at h
    exact h
  · have h := (pagination_hasMore_and_offsets
      (fun _ _ => ⟨[⟨"r", "centre-1", "u", "t", none, none, none, false⟩], none⟩)
      ⟨[], false, 0, ""⟩).1 rfl
    rw [h]
  · have h := (pagination_hasMore_and_offsets
      (fun _ _ => ⟨[⟨"r2", "centre-1", "u", "t2", none, none, none, false⟩], none⟩)
      ⟨[⟨"r", "centre-1", "u", "t", none, none, none, false⟩], true, 20, ""⟩).2.2.1 rfl
    rw [h]
    rfl

/-- C10: when a second distinct selection arrives within 150 ms of the
first, the first selection's pending fade timer is cancelled and replaced
(after both selections and before any firing there has been no filter
swap and no reload, and the single pending timer targets the second
selection at its time plus 150 ms); running the schedule to completion
performs exactly one swap and one reload, both for the second
selection. -/
theorem debounce_second_selection_wins (s0 : DebounceState) (t1 t2 : Nat)
    (v1 v2 : String)
    (hpend : s0.pending = none)
    (hv1 : v1 ≠ s0.viewFilter) (hv2 : v2 ≠ s0.viewFilter) (hne : v2 ≠ v1)
    (ht12 : t1 ≤ t2) (hlt : t2 < t1 + 150) :
    (selectFilter t2 v2 (selectFilter t1 v1 s0)).viewFilter = s0.viewFilter ∧
    (selectFilter t2 v2 (selectFilter t1 v1 s0)).reloads = s0.reloads ∧
    (selectFilter t2 v2 (selectFilter t1 v1 s0)).pending = some (t2 + 150, v2) ∧
    runEvents [(t1, v1), (t2, v2)] s0 =
      { viewFilter := v2, contentOpacity := 1, pending := none,
        reloads := s0.reloads ++ [v2] } := by
  have hnotdue : ¬ (t1 + 150 ≤ t2) := by omega
  refine ⟨?_, ?_, ?_, ?_⟩
  · simp [selectFilter, hv1, hv2]
  · simp [selectFilter, hv1, hv2]
  · simp [selectFilter, hv1, hv2]
  · simp [runEvents, timerDue, selectFilter, fireTimer, hv1, hv2, hpend, hnotdue]

/-- C10 witness: from the "all" filter, selecting one class at t=1000 and
a different class at t=1100 yields a single reload of the second class
only, with the timer pending until t=1250. -/
theorem debounce_second_selection_wins_witness :
    (selectFilter 1100 "P1__Mathematics"
        (selectFilter 1000 "S2__Physics" ⟨"all", 1, none, []⟩)).viewFilter = "all" ∧
    (selectFilter 1100 "P1__Mathematics"
        (selectFilter 1000 "S2__Physics" ⟨"all", 1, none, []⟩)).reloads = [] ∧
    (selectFilter 1100 "P1__Mathematics"
        (selectFilter 1000 "S2__Physics" ⟨"all", 1, none, []⟩)).pending =
      some (1250, "P1__Mathematics") ∧
    runEvents [(1000, "S2__Physics"), (1100, "P1__Mathematics")]
        ⟨"all", 1, none, []⟩ =
      ⟨"P1__Mathematics", 1, none, ["P1__Mathematics"]⟩ := by
  have h := debounce_second_selection_wins ⟨"all", 1, none, []⟩ 1000 1100
    "S2__Physics" "P1__Mathematics" rfl (by decide) (by decide) (by decide)
    (by decide) (by decide)
  exact ⟨h.1, h.2.1, h.2.2.1, h.2.2.2⟩

/-! ### Offerings sort: order of the comparator and the C8 lemmas -/

theorem natCmp_swap (a b : Nat) : natCmp b a = (natCmp a b).swap := by
  unfold natCmp
  rcases Nat.lt_trichotomy a b with h | h | h
  · simp [h, Nat.lt_asymm h, Nat.ne_of_lt h, Ordering.swap]
  · subst h; simp [Ordering.swap]
  · simp [h, Nat.lt_asymm h, Ordering.swap]

theorem natCmp_eq_iff (a b : Nat) : natCmp a b = .eq ↔ a = b := by
  unfold natCmp
  rcases Nat.lt_trichotomy a b with h | h | h
  · simp [h, Nat.ne_of_lt h]
  · subst h; simp
  · simp [h, Nat.lt_asymm h, (Nat.ne_of_lt h).symm]

theorem lexCmp_swap (a b : List Char) : lexCmp b a = (lexCmp a b).swap := by
  induction a generalizing b with
  | nil => cases b <;> simp [lexCmp, Ordering.swap]
  | cons x xs ih =>
    cases b with
    | nil => simp [lexCmp, Ordering.swap]
    | cons y ys =>
      simp only [lexCmp]
      rcases lt_trichotomy x y with h | h | h
      · simp [h, not_lt_of_gt h, Ordering.swap]
      · subst h; simp [lt_irrefl, ih]
      · simp [h, not_lt_of_gt h, Ordering.swap]

theorem lexCmp_eq_iff (a b : List Char) : lexCmp a b = .eq ↔ a = b := by
  induction a generalizing b with
  | nil => cases b <;> simp [lexCmp]
  | cons x xs ih =>
    cases b with
    | nil => simp [lexCmp]
    | cons y ys =>
      simp only [lexCmp]
      rcases lt_trichotomy x y with h | h | h
      · simp [h, ne_of_lt h]
      · subst h; simp [lt_irrefl, ih]
      · simp [h, not_lt_of_gt h, (ne_of_lt h).symm]

theorem orderingThen_swap (x y : Ordering) : (x.then y).swap = x.swap.then y.swap := by
  cases x <;> rfl

theorem orderingThen_eq_eq {x y : Ordering} : x.then y = .eq ↔ x = .eq ∧ y = .eq := by
  cases x <;> simp [Ordering.then]

theorem strLexCmp_swap (a b : String) : strLexCmp b a = (strLexCmp a b).swap :=
  lexCmp_swap a.data b.data

theorem strLexCmp_eq_iff (a b : String) : strLexCmp a b = .eq ↔ a = b := by
  unfold strLexCmp
  rw [lexCmp_eq_iff]
  constructor
  · intro h
    cases a; cases b
    exact congrArg String.mk h
  · intro h; rw [h]

theorem offeringCmp_swap (a b : OfferingItem) :
    offeringCmp b a = (offeringCmp a b).swap := by
  unfold offeringCmp
  simp only [orderingThen_swap, ← natCmp_swap, ← strLexCmp_swap]

theorem offeringCmp_eq_eq {a b : OfferingItem} (h : offeringCmp a b = .eq) :
    a.level = b.level ∧ a.subject = b.subject := by
  unfold offeringCmp at h
  rw [orderingThen_eq_eq] at h
  rw [orderingThen_eq_eq] at h
  obtain ⟨-, -, h2⟩ := h
  rw [orderingThen_eq_eq] at h2
  exact ⟨(strLexCmp_eq_iff _ _).mp h2.1, (strLexCmp_eq_iff _ _).mp h2.2⟩

/-- Distinctness of the (level, subject) pair. -/
def offeringKeyNe (a b : OfferingItem) : Prop :=
  a.level ≠ b.level ∨ a.subject ≠ b.subject

theorem offeringCmp_ne_eq_of_keyNe {a b : OfferingItem}
    (h : offeringKeyNe a b) : offeringCmp a b ≠ .eq := by
  intro heq
  obtain ⟨h1, h2⟩ := offeringCmp_eq_eq heq
  rcases h with h | h
  · exact h h1
  · exact h h2

theorem insertSorted_perm (x : OfferingItem) (l : List OfferingItem) :
    (insertSorted x l).Perm (x :: l) := by
  induction l with
  | nil => exact .refl _
  | cons y ys ih =>
    simp only [insertSorted]
    split
    · exact (ih.cons y).trans (List.Perm.swap x y ys)
    · exact .refl _

theorem insertSorted_head {x z : OfferingItem} {l : List OfferingItem}
    (h : (insertSorted x l).head? = some z) : z = x ∨ l.head? = some z := by
  cases l with
  | nil =>
    simp only [insertSorted, List.head?] at h
    exact Or.inl (Option.some.inj h).symm
  | cons y ys =>
    simp only [insertSorted] at h
    split at h
    · simp only [List.head?] at h
      exact Or.inr (by simp [List.head?, Option.some.inj h])
    · simp only [List.head?] at h
      exact Or.inl (Option.some.inj h).symm

theorem insertSorted_chain {x : OfferingItem} {l : List OfferingItem}
    (hc : List.Chain' (fun a b => offeringCmp a b = .lt) l)
    (hx : ∀ y ∈ l, offeringCmp x y ≠ .eq) :
    List.Chain' (fun a b => offeringCmp a b = .lt) (insertSorted x l) := by
  induction l with
  | nil => simp [insertSorted]
  | cons y ys ih =>
    have hcy := List.chain'_cons'.mp hc
    simp only [insertSorted]
    split
    · next hgt =>
      have hyx : offeringCmp y x = .lt := by
        rw [offeringCmp_swap, hgt]; rfl
      refine List.chain'_cons'.mpr ⟨?_, ih hcy.2 (fun z hz => hx z (List.mem_cons_of_mem y hz))⟩
      intro z hz
      rcases insertSorted_head hz with rfl | hz'
      · exact hyx
      · exact hcy.1 z hz'
    · next hngt =>
      have hlt : offeringCmp x y = .lt := by
        have hne : offeringCmp x y ≠ .eq := hx y (List.mem_cons_self y ys)
        cases hcase : offeringCmp x y with
        | lt => rfl
        | eq => exact absurd hcase hne
        | gt => exact absurd hcase hngt
      exact List.chain'_cons'.mpr ⟨fun z hz => by
        simp only [List.head?] at hz
        rw [← Option.some.inj hz]; exact hlt, hc⟩

theorem sortOfferings_perm (l : List OfferingItem) :
    (sortOfferings l).Perm l := by
  induction l with
  | nil => exact .refl _
  | cons x xs ih => exact (insertSorted_perm x _).trans (ih.cons x)

theorem sortOfferings_chain {l : List OfferingItem}
    (h : List.Pairwise offeringKeyNe l) :
    List.Chain' (fun a b => offeringCmp a b = .lt) (sortOfferings l) := by
  induction l with
  | nil => simp [sortOfferings]
  | cons x xs ih =>
    have hp := List.pairwise_cons.mp h
    refine insertSorted_chain (ih hp.2) ?_
    intro y hy
    have hyxs : y ∈ xs := (sortOfferings_perm xs).subset hy
    exact offeringCmp_ne_eq_of_keyNe (hp.1 y hyxs)

theorem dedupOfferings_key_fact (l : List RawOffering) :
    ∀ seen, ∀ it ∈ dedupOfferings seen l,
      it.key = filterKey it.level it.subject ∧ it.key ∉ seen := by
  induction l with
  | nil => intro seen it hit; simp [dedupOfferings] at hit
  | cons o rest ih =>
    intro seen it hit
    obtain ⟨olv, osj⟩ := o
    cases olv with
    | none => exact ih seen it hit
    | some lv =>
      cases osj with
      | none => exact ih seen it hit
      | some sj =>
        simp only [dedupOfferings] at hit
        split at hit
        · exact ih seen it hit
        · split at hit
          · exact ih seen it hit
          · next hseen =>
            rcases List.mem_cons.mp hit with rfl | hmem
            · exact ⟨rfl, hseen⟩
            · have := ih _ it hmem
              exact ⟨this.1, fun hin => this.2 (List.mem_cons_of_mem _ hin)⟩

theorem dedupOfferings_pairwise_keys (l : List RawOffering) :
    ∀ seen, List.Pairwise (fun a b : OfferingItem => a.key ≠ b.key)
      (dedupOfferings seen l) := by
  induction l with
  | nil => intro seen; simp [dedupOfferings]
  | cons o rest ih =>
    intro seen
    obtain ⟨olv, osj⟩ := o
    cases olv with
    | none => exact ih seen
    | some lv =>
      cases osj with
      | none => exact ih seen
      | some sj =>
        simp only [dedupOfferings]
        split
        · exact ih seen
        · split
          · exact ih seen
          · refine List.pairwise_cons.mpr ⟨?_, ih _⟩
            intro b hb heq
            have hb2 := (dedupOfferings_key_fact rest _ b hb).2
            exact hb2 (by rw [← heq]; exact List.mem_cons_self _ _)

theorem filterKey_inj_of_pair_eq {a b : OfferingItem}
    (ha : a.key = filterKey a.level a.subject)
    (hb : b.key = filterKey b.level b.subject)
    (hl : a.level = b.level) (hs : a.subject = b.subject) : a.key = b.key := by
  rw [ha, hb, hl, hs]

theorem dedupOfferings_pairwise_keyNe (l : List RawOffering) :
    List.Pairwise offeringKeyNe (dedupOfferings [] l) := by
  have hkeys := dedupOfferings_pairwise_keys l []
  refine List.Pairwise.imp_of_mem ?_ hkeys
  intro a b ha hb hne
  by_contra hcon
  rw [offeringKeyNe, not_or, not_not, not_not] at hcon
  exact hne (filterKey_inj_of_pair_eq
    (dedupOfferings_key_fact l [] a ha).1
    (dedupOfferings_key_fact l [] b hb).1 hcon.1 hcon.2)

theorem groupGo_some (lv : String) (l : List OfferingItem) :
    groupGo (some lv) l =
      (l.takeWhile (fun y => y.level == lv)).map .item ++
        groupGo none (l.dropWhile (fun y => y.level == lv)) := by
  induction l with
  | nil => simp [groupGo]
  | cons it rest ih =>
    by_cases h : it.level = lv
    · have hbeq : (it.level == lv) = true := by simp [h]
      have hcond : (some lv : Option String) = some it.level := by rw [h]
      simp only [groupGo, List.takeWhile_cons, List.dropWhile_cons, hbeq,
        if_pos hcond, List.map_cons, List.cons_append]
      simp [ih]
    · have hbeq : (it.level == lv) = false := by simp [h]
      have hcur : ¬ (some lv = some it.level) := by
        intro hcontra
        exact h (Option.some.inj hcontra).symm
      have hnone : ¬ ((none : Option String) = some it.level) := by simp
      simp only [groupGo, List.takeWhile_cons, List.dropWhile_cons, hbeq,
        if_neg hcur, if_neg hnone, List.map_nil, List.nil_append]
      simp

theorem groupGo_none_eq_groupRuns (l : List OfferingItem) :
    groupGo none l = groupRuns l := by
  induction l using groupRuns.induct with
  | case1 => simp [groupGo, groupRuns]
  | case2 it rest ih =>
    have hnone : ¬ ((none : Option String) = some it.level) := by simp
    simp only [groupGo, if_neg hnone]
    rw [groupGo_some, ih]
    rw [groupRuns]

/-- C8: the offerings list is deduplicated by the `filterKey` of the
(level, subject) pair (pairwise-distinct pairs, and exactly a permutation
of the first-occurrence dedup pass), sorted strictly by the canonical
comparator — canonical level index first with unrecognized levels after
all recognized ones, then canonical subject index likewise, with
remaining ties among unrecognized values broken lexicographically (level
then subject) — and the grouped display list emits exactly one header
per maximal run of equal levels followed by that run's members in
order. -/
theorem offerings_sorted_deduped_grouped (raw : List RawOffering) :
    List.Chain' (fun a b => offeringCmp a b = .lt) (offerings raw) ∧
    List.Pairwise offeringKeyNe (offerings raw) ∧
    (offerings raw).Perm (dedupOfferings [] raw) ∧
    groupedOfferings raw = groupRuns (offerings raw) := by
  have hgroup : groupedOfferings raw = groupRuns (offerings raw) :=
    groupGo_none_eq_groupRuns (offerings raw)
  cases raw with
  | nil =>
    refine ⟨?_, ?_, ?_, hgroup⟩ <;> simp [offerings, dedupOfferings]
  | cons o rest =>
    have hpair : List.Pairwise offeringKeyNe (dedupOfferings [] (o :: rest)) :=
      dedupOfferings_pairwise_keyNe (o :: rest)
    have hperm : (offerings (o :: rest)).Perm (dedupOfferings [] (o :: rest)) :=
      sortOfferings_perm _
    refine ⟨sortOfferings_chain hpair, ?_, hperm, hgroup⟩
    have hsymm : ∀ {x y : OfferingItem}, offeringKeyNe x y → offeringKeyNe y x := by
      intro x y h
      rcases h with h | h
      · exact Or.inl (Ne.symm h)
      · exact Or.inr (Ne.symm h)
    exact (hperm.pairwise_iff hsymm).mpr hpair

example : offerings
    [⟨some "S2", some "English"⟩, ⟨some "P1", some "Mathematics"⟩,
     ⟨some "S2", some "Science"⟩, ⟨some "S2", some "English"⟩] =
    [⟨"P1__Mathematics", "P1 Mathematics", "P1", "Mathematics"⟩,
     ⟨"S2__Science", "S2 Science", "S2", "Science"⟩,
     ⟨"S2__English", "S2 English", "S2", "English"⟩] := by decide

example : groupedOfferings
    [⟨some "S2", some "English"⟩, ⟨some "P1", some "Mathematics"⟩,
     ⟨some "S2", some "Science"⟩] =
    [.header "P1" "Primary 1",
     .item ⟨"P1__Mathematics", "P1 Mathematics", "P1", "Mathematics"⟩,
     .header "S2" "Secondary 2",
     .item ⟨"S2__Science", "S2 Science", "S2", "Science"⟩,
     .item ⟨"S2__English", "S2 English", "S2", "English"⟩] := by decide

end Podsee
